import Mathlib

/-!
# Verification of the sports-numerology scoring engine

Shallow embedding of `backend/numerology.py`.  Python `while` loops over a
decreasing numeric total are embedded as fuel-indexed structural recursions
(the fuel is always sufficient, which is proved as a stability lemma), so
every definition is executable by the kernel.  Machine integers do not
overflow here (Python ints are unbounded), so `Nat` is the faithful carrier:
all totals are sums of digit values and are non-negative.
-/

namespace Numerology

/-- Value of an ASCII digit character, `int(c)` in the source. -/
def digitVal (c : Char) : Nat := c.toNat - 48

/-- `c.isdigit()` for the ASCII digits (the only digits appearing in the
date strings this engine handles). -/
def isDigitChar (c : Char) : Bool := 48 ≤ c.toNat && c.toNat ≤ 57

/-- `sum(int(d) for d in str(n))`, embedded with explicit fuel; one unit of
fuel per removed decimal digit is more than enough. -/
def digitSumFuel : Nat → Nat → Nat
  | 0, n => n
  | fuel + 1, n => if n < 10 then n else digitSumFuel fuel (n / 10) + n % 10

/-- Decimal digit sum of `n` (`sum(int(d) for d in str(n))`). -/
def digitSum (n : Nat) : Nat := digitSumFuel n n

/-- `while total > 9: total = sum(int(d) for d in str(total))`, the plain
reduction used for universal/personal cycle numbers (no master-number stop). -/
def plainReduceFuel : Nat → Nat → Nat
  | 0, n => n
  | fuel + 1, n => if n > 9 then plainReduceFuel fuel (digitSum n) else n

/-- Plain digit-root reduction of a total, with adequate fuel. -/
def plainReduce (n : Nat) : Nat := plainReduceFuel n n

/-- `while total > 9 and total not in [11, 22, 33]: ...`, the reduction used
for life-path and expression numbers (stops at master numbers). -/
def masterReduceFuel : Nat → Nat → Nat
  | 0, n => n
  | fuel + 1, n =>
      if n > 9 ∧ n ≠ 11 ∧ n ≠ 22 ∧ n ≠ 33 then masterReduceFuel fuel (digitSum n) else n

/-- Master-number-stopping digit-root reduction of a total. -/
def masterReduce (n : Nat) : Nat := masterReduceFuel n n

/-! ## Basic facts about the fuelled reductions -/

theorem digitSumFuel_le : ∀ (fuel n : Nat), digitSumFuel fuel n ≤ n := by
  intro fuel
  induction fuel with
  | zero => intro n; simp [digitSumFuel]
  | succ f ih =>
      intro n
      simp only [digitSumFuel]
      split
      · exact Nat.le_refl n
      · have h1 : digitSumFuel f (n / 10) ≤ n / 10 := ih (n / 10)
        have h2 : 10 * (n / 10) + n % 10 = n := Nat.div_add_mod n 10
        omega

theorem digitSumFuel_pos : ∀ (fuel n : Nat), 1 ≤ n → 1 ≤ digitSumFuel fuel n := by
  intro fuel
  induction fuel with
  | zero => intro n h; simpa [digitSumFuel] using h
  | succ f ih =>
      intro n h
      simp only [digitSumFuel]
      split
      · exact h
      · rename_i hbig
        have h2 : 10 * (n / 10) + n % 10 = n := Nat.div_add_mod n 10
        rcases Nat.eq_zero_or_pos (n % 10) with hm | hm
        · have hq : 1 ≤ n / 10 := by omega
          have := ih (n / 10) hq
          omega
        · omega

theorem digitSumFuel_lt : ∀ (fuel n : Nat), 10 ≤ n → 1 ≤ fuel →
    digitSumFuel fuel n < n := by
  intro fuel n hn hf
  match fuel, hf with
  | f + 1, _ =>
    simp only [digitSumFuel]
    split
    · omega
    · have h1 : digitSumFuel f (n / 10) ≤ n / 10 := digitSumFuel_le f (n / 10)
      have h2 : 10 * (n / 10) + n % 10 = n := Nat.div_add_mod n 10
      omega

theorem digitSum_le (n : Nat) : digitSum n ≤ n := digitSumFuel_le n n

theorem digitSum_pos (n : Nat) (h : 1 ≤ n) : 1 ≤ digitSum n := digitSumFuel_pos n n h

theorem digitSum_lt (n : Nat) (h : 10 ≤ n) : digitSum n < n :=
  digitSumFuel_lt n n h (by omega)

theorem plainReduceFuel_le_nine : ∀ (fuel n : Nat), n ≤ fuel →
    plainReduceFuel fuel n ≤ 9 := by
  intro fuel
  induction fuel with
  | zero => intro n h; interval_cases n; simp [plainReduceFuel]
  | succ f ih =>
      intro n h
      simp only [plainReduceFuel]
      split
      · rename_i hbig
        have hlt : digitSum n < n := digitSum_lt n (by omega)
        exact ih (digitSum n) (by omega)
      · omega

theorem plainReduceFuel_pos : ∀ (fuel n : Nat), 1 ≤ n →
    1 ≤ plainReduceFuel fuel n := by
  intro fuel
  induction fuel with
  | zero => intro n h; simpa [plainReduceFuel] using h
  | succ f ih =>
      intro n h
      simp only [plainReduceFuel]
      split
      · exact ih (digitSum n) (digitSum_pos n h)
      · exact h

theorem plainReduce_le_nine (n : Nat) : plainReduce n ≤ 9 :=
  plainReduceFuel_le_nine n n (Nat.le_refl n)

theorem plainReduce_pos (n : Nat) (h : 1 ≤ n) : 1 ≤ plainReduce n :=
  plainReduceFuel_pos n n h

theorem masterReduceFuel_range : ∀ (fuel n : Nat), n ≤ fuel → 1 ≤ n →
    (1 ≤ masterReduceFuel fuel n ∧ masterReduceFuel fuel n ≤ 9) ∨
      masterReduceFuel fuel n = 11 ∨ masterReduceFuel fuel n = 22 ∨
      masterReduceFuel fuel n = 33 := by
  intro fuel
  induction fuel with
  | zero => intro n h h1; omega
  | succ f ih =>
      intro n h h1
      simp only [masterReduceFuel]
      split
      · rename_i hcond
        have hlt : digitSum n < n := digitSum_lt n (by omega)
        exact ih (digitSum n) (by omega) (digitSum_pos n h1)
      · rename_i hcond
        omega

/-- Fuel stability: any fuel at least `n` computes the same master reduction,
i.e. the loop terminates within `n` iterations. -/
theorem masterReduceFuel_stable : ∀ (n fuel : Nat), n ≤ fuel →
    masterReduceFuel fuel n = masterReduce n := by
  intro n
  induction n using Nat.strong_induction_on with
  | _ n ih =>
    intro fuel hfuel
    by_cases hcond : n > 9 ∧ n ≠ 11 ∧ n ≠ 22 ∧ n ≠ 33
    · obtain ⟨f, rfl⟩ : ∃ f, fuel = f + 1 := ⟨fuel - 1, by omega⟩
      obtain ⟨m, hm⟩ : ∃ m, n = m + 1 := ⟨n - 1, by omega⟩
      have hlt : digitSum n < n := digitSum_lt n (by omega)
      have h1 : masterReduceFuel (f + 1) n = masterReduceFuel f (digitSum n) := by
        simp only [masterReduceFuel, if_pos hcond]
      have h2 : masterReduce n = masterReduceFuel m (digitSum n) := by
        rw [masterReduce, hm]
        simp only [masterReduceFuel, ← hm, if_pos hcond]
      rw [h1, h2, ih (digitSum n) hlt f (by omega), ih (digitSum n) hlt m (by omega)]
    · have hstop : ∀ g, masterReduceFuel g n = n := by
        intro g
        cases g with
        | zero => rfl
        | succ g => simp only [masterReduceFuel, if_neg hcond]
      rw [hstop fuel, masterReduce, hstop n]

/-! ## Date parsing helpers

`analyze_match` parses the match date with `datetime.strptime(s, '%Y-%m-%d')`.
CPython compiles that format to the anchored regex
`\d\d\d\d\-(1[0-2]|0[1-9]|[1-9])\-(3[01]|[12]\d|0[1-9]|[1-9])`, requires the
whole input to be consumed, and then the `datetime` constructor enforces
`year >= 1` and that the day exists in the month.  Birthdates are never
parsed that way: `calculate_personal_year` splits on `'-'` and applies `int`.
-/

/-- A parsed calendar date (`datetime` restricted to the fields the engine
reads). -/
structure Date where
  year : Nat
  month : Nat
  day : Nat
deriving DecidableEq, Repr

/-- Python `str.split('-')`, over the character list (keeps empty pieces). -/
def splitDashAux : List Char → List Char → List (List Char)
  | acc, [] => [acc.reverse]
  | acc, '-' :: rest => acc.reverse :: splitDashAux [] rest
  | acc, c :: rest => splitDashAux (c :: acc) rest

/-- `birthdate.split('-')`. -/
def splitDash (s : String) : List (List Char) := splitDashAux [] s.data

/-- Python whitespace as classified by `str.strip` / the `re` module's `\s`
on ASCII text: space, tab, newline, carriage return, vertical tab, form feed. -/
def isPyWs (c : Char) : Bool :=
  c = ' ' || c = '\t' || c = '\n' || c = '\r' || c.toNat = 11 || c.toNat = 12

/-- Digits-to-value accumulator used when a digit string is converted to an
integer. -/
def digitsToNat (l : List Char) : Nat := l.foldl (fun a c => 10 * a + digitVal c) 0

/-- Python `int(s)` on a fragment produced by `split('-')`: surrounding
whitespace is allowed, an optional leading `+`, then a non-empty run of
digits.  (A minus sign can never reach this parser because the argument is a
`split('-')` fragment; numeric-literal underscores and non-ASCII digits are
outside the engine's input space and are not modelled.) -/
def pyInt (l : List Char) : Option Nat :=
  let t := ((l.dropWhile isPyWs).reverse.dropWhile isPyWs).reverse
  let t2 := match t with
    | '+' :: rest => rest
    | _ => t
  if t2 ≠ [] ∧ t2.all isDigitChar then some (digitsToNat t2) else none

/-- Gregorian leap-year test, as in `calendar.isleap` / `datetime`. -/
def isLeap (y : Nat) : Bool := y % 4 == 0 && (y % 100 != 0 || y % 400 == 0)

/-- Number of days in a month, as enforced by the `datetime` constructor. -/
def daysInMonth (y m : Nat) : Nat :=
  if m = 2 then (if isLeap y then 29 else 28)
  else if m = 4 ∨ m = 6 ∨ m = 9 ∨ m = 11 then 30
  else 31

/-- Parse a one- or two-digit field the way the strptime regex alternation
`(1[0-2]|0[1-9]|[1-9])` (months, `hi = 12`) or
`(3[01]|[12]\d|0[1-9]|[1-9])` (days, `hi = 31`) does: a two-digit match is a
digit pair whose value lies in `1..hi`, otherwise a single non-zero digit is
consumed.  Backtracking cannot change the outcome because a single-digit
match is always followed by the second digit, never by the delimiter. -/
def parseNum2or1 (hi : Nat) : List Char → Option (Nat × List Char)
  | a :: b :: rest =>
      if isDigitChar a && isDigitChar b then
        let v := 10 * digitVal a + digitVal b
        if 1 ≤ v ∧ v ≤ hi then some (v, rest)
        else if 1 ≤ digitVal a then some (digitVal a, b :: rest)
        else none
      else if isDigitChar a && decide (1 ≤ digitVal a) then some (digitVal a, b :: rest)
      else none
  | [a] => if isDigitChar a && decide (1 ≤ digitVal a) then some (digitVal a, []) else none
  | [] => none

/-- `datetime.strptime(s, '%Y-%m-%d')`: `none` models the `ValueError` raised
on any string the format (plus the `datetime` constructor's range checks)
rejects. -/
def strptimeYmd (s : String) : Option Date :=
  match s.data with
  | y1 :: y2 :: y3 :: y4 :: '-' :: rest =>
      if isDigitChar y1 && isDigitChar y2 && isDigitChar y3 && isDigitChar y4 then
        let year := digitsToNat [y1, y2, y3, y4]
        match parseNum2or1 12 rest with
        | some (mo, '-' :: rest2) =>
            match parseNum2or1 31 rest2 with
            | some (dy, []) =>
                if 1 ≤ year ∧ dy ≤ daysInMonth year mo then some ⟨year, mo, dy⟩ else none
            | _ => none
        | _ => none
      else none
  | _ => none

/-! ## Date / cycle calculators (`numerology.py`, DATE / CYCLES section) -/

/-- `calculate_life_path(birthdate)`: keep the digit characters of the string,
sum their values, reduce with the master-number stop.  Total over all
strings — it performs no date validation. -/
def calculate_life_path (birthdate : String) : Nat :=
  masterReduce (((birthdate.data.filter isDigitChar).map digitVal).sum)

/-- `calculate_personal_year(birthdate, year)`: `month`/`day` come from
`int(birthdate.split('-')[1])` and `int(birthdate.split('-')[2])`; `none`
models the `IndexError`/`ValueError` raised when that lenient parse fails. -/
def calculate_personal_year (birthdate : String) (year : Nat) : Option Nat := do
  let parts := splitDash birthdate
  let ms ← parts[1]?
  let ds ← parts[2]?
  let month ← pyInt ms
  let day ← pyInt ds
  pure (plainReduce (month + day + digitSum year))

/-- `calculate_personal_day(birthdate, date)`. -/
def calculate_personal_day (birthdate : String) (d : Date) : Option Nat := do
  let py ← calculate_personal_year birthdate d.year
  pure (plainReduce (py + d.month + d.day))

/-- `calculate_universal_year(year)`. -/
def calculate_universal_year (year : Nat) : Nat := plainReduce (digitSum year)

/-- `calculate_universal_month(year, month)`. -/
def calculate_universal_month (year month : Nat) : Nat :=
  plainReduce (calculate_universal_year year + month)

/-- `calculate_universal_day(year, month, day)`. -/
def calculate_universal_day (year month day : Nat) : Nat :=
  plainReduce (calculate_universal_month year month + day)

/-! ## Name normalization (`normalize_name`)

The source runs, in order: `unicodedata.normalize("NFKD", name)`, then
`.encode("ascii", "ignore")` (which *deletes* every remaining code point
above 127), then `re.sub(r"[^A-Za-z\s]", " ", s)`, then
`re.sub(r"\s+", " ", s).strip()`.  NFKD is a fixed library table; we embed
it for the characters exercised in this development (characters with no
canonical decomposition, such as `ø`, map to themselves). -/

/-- Single-character NFKD decomposition table (identity outside the listed
characters, which is correct for every undecomposable character). -/
def nfkdChar (c : Char) : List Char :=
  if c = 'é' then ['e', Char.ofNat 769]
  else if c = 'á' then ['a', Char.ofNat 769]
  else if c = 'š' then ['s', Char.ofNat 780]
  else if c = 'č' then ['c', Char.ofNat 780]
  else [c]

/-- `unicodedata.normalize("NFKD", s)` over the character list. -/
def nfkdList (l : List Char) : List Char := (l.map nfkdChar).flatten

/-- `.encode("ascii", "ignore").decode("ascii")`: drop every code point
above 127 (this silently deletes combining marks *and* undecomposable
non-ASCII letters). -/
def asciiIgnore (l : List Char) : List Char := l.filter (fun c => c.toNat ≤ 127)

/-- ASCII letter test, the `A-Za-z` class of the source's regex. -/
def isAsciiLetter (c : Char) : Bool :=
  ('A' ≤ c && c ≤ 'Z') || ('a' ≤ c && c ≤ 'z')

/-- `re.sub(r"[^A-Za-z\s]", " ", s)`: every character that is neither an
ASCII letter nor whitespace becomes one space. -/
def keepLetterWs (l : List Char) : List Char :=
  l.map (fun c => if isAsciiLetter c || isPyWs c then c else ' ')

/-- Split into maximal whitespace-free words, dropping all whitespace; the
word list underlying `re.sub(r"\s+", " ", s).strip()`. -/
def wordsAux : List Char → List Char → List (List Char)
  | acc, [] => if acc.isEmpty then [] else [acc.reverse]
  | acc, c :: rest =>
      if isPyWs c then
        if acc.isEmpty then wordsAux [] rest else acc.reverse :: wordsAux [] rest
      else wordsAux (c :: acc) rest

/-- Join words with single spaces: together with `wordsAux` this is exactly
`re.sub(r"\s+", " ", s).strip()`. -/
def joinWords : List (List Char) → List Char
  | [] => []
  | [w] => w
  | w :: w2 :: rest => w ++ ' ' :: joinWords (w2 :: rest)

/-- `normalize_name(name)` from the source. -/
def normalize_name (s : String) : String :=
  if s.data.isEmpty then ""
  else String.mk (joinWords (wordsAux [] (keepLetterWs (asciiIgnore (nfkdList s.data)))))

/-- Combining-mark test (Unicode block U+0300–U+036F, which contains every
mark produced by `nfkdChar`). -/
def isCombiningMark (c : Char) : Bool := 768 ≤ c.toNat && c.toNat ≤ 879

/-- Modelled from the spec (§4.1 `normalizeForCalc`), for comparison with the
code: (a) NFKD decomposition; (b) strip the combining marks only; (c) replace
every character that is not an ASCII letter or whitespace with a single
space; (d) collapse whitespace runs and trim. -/
def specNormalize (s : String) : String :=
  String.mk (joinWords (wordsAux []
    (((nfkdList s.data).filter (fun c => !isCombiningMark c)).map
      (fun c => if isAsciiLetter c || isPyWs c then c else ' '))))

/-- The spec pipeline amended to match the code: step (b) additionally
*deletes* every non-ASCII character that survives decomposition (instead of
leaving it for step (c) to turn into a space). -/
def specNormalizeAmended (s : String) : String :=
  String.mk (joinWords (wordsAux []
    ((((nfkdList s.data).filter (fun c => !isCombiningMark c)).filter
        (fun c => c.toNat ≤ 127)).map
      (fun c => if isAsciiLetter c || isPyWs c then c else ' '))))

/-! ## Name numerology -/

/-- The fixed Pythagorean letter chart (`chart.get(c, 0)` on upper-case
letters). -/
def pythagoreanChart : Char → Nat
  | 'A' => 1 | 'B' => 2 | 'C' => 3 | 'D' => 4 | 'E' => 5 | 'F' => 6 | 'G' => 7
  | 'H' => 8 | 'I' => 9
  | 'J' => 1 | 'K' => 2 | 'L' => 3 | 'M' => 4 | 'N' => 5 | 'O' => 6 | 'P' => 7
  | 'Q' => 8 | 'R' => 9
  | 'S' => 1 | 'T' => 2 | 'U' => 3 | 'V' => 4 | 'W' => 5 | 'X' => 6 | 'Y' => 7
  | 'Z' => 8
  | _ => 0

/-- `name_to_number(name)`: normalize, sum chart values of the letters,
reduce with the master-number stop. -/
def name_to_number (name : String) : Nat :=
  let n := normalize_name name
  masterReduce (((n.data.filter Char.isAlpha).map (fun c => pythagoreanChart c.toUpper)).sum)

/-- `get_harmonious_groups()`. -/
def get_harmonious_groups : List (List Nat) := [[1, 3, 5, 7, 9], [2, 4, 6, 8]]

/-- `numbers_compatible(n1, n2)`: both numbers lie in one of the harmonious
groups. -/
def numbers_compatible (n1 n2 : Nat) : Bool :=
  get_harmonious_groups.any (fun g => g.contains n1 && g.contains n2)

/-! ## Scoring (`calculate_match_score`) -/

/-- The athlete profile dict built inside `analyze_match`. -/
structure Profile where
  name : String
  birthdate : String
  life_path : Nat
  expression : Nat
deriving DecidableEq, Repr

/-- Reason string of rule 1 (`+10`). -/
def reasonLifePathMatch (lp uy : Nat) : String :=
  s!"Life Path {lp} matches Universal Year {uy} (+10)"

/-- Reason string of rule 2 (`+10`). -/
def reasonPersonalYearMatch (py uy : Nat) : String :=
  s!"Personal Year {py} matches Universal Year {uy} (+10)"

/-- Reason string of rule 3 (`+5`). -/
def reasonPersonalDayMatch (pd ud : Nat) : String :=
  s!"Personal Day {pd} matches Universal Day {ud} (+5)"

/-- Reason string of rule 4 (`+5`). -/
def reasonExpressionMatch (ex um : Nat) : String :=
  s!"Expression {ex} matches Universal Month {um} (+5)"

/-- Reason string of rule 5 (`+3`). -/
def reasonLifePathHarmony (lp uy : Nat) : String :=
  s!"Life Path {lp} harmonizes with Universal Year {uy} (+3)"

/-- Reason string of rule 6 (`+3`). -/
def reasonPersonalYearHarmony (py uy : Nat) : String :=
  s!"Personal Year {py} harmonizes with Universal Year {uy} (+3)"

/-- The sequential `score += w` / `reasons.append(...)` accumulation over the
six rules, in the fixed source order, abstracted over the six rule conditions
and reason strings. -/
def scoreAccum (c1 c2 c3 c4 c5 c6 : Prop) [Decidable c1] [Decidable c2]
    [Decidable c3] [Decidable c4] [Decidable c5] [Decidable c6]
    (r1 r2 r3 r4 r5 r6 : String) : Nat × List String :=
  let acc1 : Nat × List String := if c1 then (0 + 10, [] ++ [r1]) else (0, [])
  let acc2 := if c2 then (acc1.1 + 10, acc1.2 ++ [r2]) else acc1
  let acc3 := if c3 then (acc2.1 + 5, acc2.2 ++ [r3]) else acc2
  let acc4 := if c4 then (acc3.1 + 5, acc3.2 ++ [r4]) else acc3
  let acc5 := if c5 then (acc4.1 + 3, acc4.2 ++ [r5]) else acc4
  let acc6 := if c6 then (acc5.1 + 3, acc5.2 ++ [r6]) else acc5
  acc6

/-- `calculate_match_score(athlete_profile, match_date)`: evaluate the six
rules in order, accumulating weight and reason exactly as the source's
`if`-chain does.  `none` models the exception propagated from the lenient
birthdate parse inside the personal-year/day calculators. -/
def calculate_match_score (p : Profile) (d : Date) : Option (Nat × List String) := do
  let uy := calculate_universal_year d.year
  let um := calculate_universal_month d.year d.month
  let ud := calculate_universal_day d.year d.month d.day
  let py ← calculate_personal_year p.birthdate d.year
  let pd ← calculate_personal_day p.birthdate d
  pure (scoreAccum (p.life_path = uy) (py = uy) (pd = ud) (p.expression = um)
    (numbers_compatible p.life_path uy = true) (numbers_compatible py uy = true)
    (reasonLifePathMatch p.life_path uy) (reasonPersonalYearMatch py uy)
    (reasonPersonalDayMatch pd ud) (reasonExpressionMatch p.expression um)
    (reasonLifePathHarmony p.life_path uy) (reasonPersonalYearHarmony py uy))

/-- The accumulator equals the sum of fired weights paired with the ordered
concatenation of the fired reasons. -/
theorem scoreAccum_eq (c1 c2 c3 c4 c5 c6 : Prop) [Decidable c1] [Decidable c2]
    [Decidable c3] [Decidable c4] [Decidable c5] [Decidable c6]
    (r1 r2 r3 r4 r5 r6 : String) :
    scoreAccum c1 c2 c3 c4 c5 c6 r1 r2 r3 r4 r5 r6 =
      ((if c1 then 10 else 0) + (if c2 then 10 else 0) + (if c3 then 5 else 0) +
        (if c4 then 5 else 0) + (if c5 then 3 else 0) + (if c6 then 3 else 0),
       (if c1 then [r1] else []) ++ (if c2 then [r2] else []) ++
        (if c3 then [r3] else []) ++ (if c4 then [r4] else []) ++
        (if c5 then [r5] else []) ++ (if c6 then [r6] else [])) := by
  simp only [scoreAccum]
  split_ifs <;> rfl

/-- The sum of any subset of the six rule weights is at most 36. -/
theorem sum_of_rule_weights_le (c1 c2 c3 c4 c5 c6 : Prop) [Decidable c1]
    [Decidable c2] [Decidable c3] [Decidable c4] [Decidable c5] [Decidable c6] :
    (if c1 then 10 else 0) + (if c2 then 10 else 0) + (if c3 then 5 else 0) +
      (if c4 then 5 else 0) + (if c5 then 3 else 0) + (if c6 then 3 else 0) ≤ 36 := by
  split_ifs <;> omega

/-! ## Main analysis (`analyze_match`) -/

/-- Python `(name or "").strip()`. -/
def pyStrip (s : String) : String :=
  String.mk (((s.data.dropWhile isPyWs).reverse.dropWhile isPyWs).reverse)

/-- The per-player block of the result dict. -/
structure PlayerOut where
  name : String
  life_path : Nat
  expression : Nat
  personal_year : Nat
  score : Nat
  reasons : List String
deriving DecidableEq, Repr, Inhabited

/-- The result dict returned by `analyze_match`. -/
structure MatchResult where
  match_date : String
  sport : String
  universal_year : Nat
  universal_month : Nat
  universal_day : Nat
  player1 : PlayerOut
  player2 : PlayerOut
  winner_prediction : String
  confidence : String
  score_difference : Nat
  recommendation : String
  bet_size : String
  analysis_summary : String
deriving DecidableEq, Repr, Inhabited

/-- The profile dict `analyze_match` builds for one player: the display name
is the stripped original, the calculation name is its normalization, and the
expression is computed from the calculation name. -/
def mkProfile (nameRaw birthdate : String) : Profile :=
  let original := pyStrip nameRaw
  let calcName := normalize_name original
  { name := calcName
    birthdate := birthdate
    life_path := calculate_life_path birthdate
    expression := name_to_number calcName }

/-- Recommendation text of the `diff >= 20` branch. -/
def strongRecommendation (winner : String) : String := s!"Strong bet on {winner}"

/-- Recommendation text of the `diff >= 10` branch. -/
def moderateRecommendation (winner : String) : String := s!"Moderate bet on {winner}"

/-- The pure tail of `analyze_match`: winner selection, the
`diff >= 20` / `diff >= 10` / else verdict ladder, and the result dict.
Each branch of the source's single `if/elif/else` is rendered as one
conditional per assigned variable. -/
def mkResult (n1o n2o : String) (p1 p2 : Profile) (mds sport : String) (md : Date)
    (score1 : Nat) (reasons1 : List String) (score2 : Nat) (reasons2 : List String)
    (py1 py2 : Nat) : MatchResult :=
  let diff := Int.natAbs ((score1 : Int) - (score2 : Int))
  let winner := if score1 > score2 then n1o else if score2 > score1 then n2o else "TIE"
  let winner_score := if score1 > score2 then score1 else if score2 > score1 then score2 else score1
  let loser_score := if score1 > score2 then score2 else if score2 > score1 then score1 else score2
  let confidence := if diff ≥ 20 then "STRONG" else if diff ≥ 10 then "MODERATE" else "LOW"
  let recommendation :=
    if diff ≥ 20 then strongRecommendation winner
    else if diff ≥ 10 then moderateRecommendation winner
    else "Avoid / No bet"
  let bet_size :=
    if diff ≥ 20 then "3-5% of bankroll" else if diff ≥ 10 then "1-2% of bankroll"
    else "Skip this match"
  { match_date := mds
    sport := sport
    universal_year := calculate_universal_year md.year
    universal_month := calculate_universal_month md.year md.month
    universal_day := calculate_universal_day md.year md.month md.day
    player1 := { name := n1o
                 life_path := p1.life_path
                 expression := p1.expression
                 personal_year := py1
                 score := score1
                 reasons := reasons1 }
    player2 := { name := n2o
                 life_path := p2.life_path
                 expression := p2.expression
                 personal_year := py2
                 score := score2
                 reasons := reasons2 }
    winner_prediction := winner
    confidence := confidence
    score_difference := diff
    recommendation := recommendation
    bet_size := bet_size
    analysis_summary :=
      s!"{winner} has numerological advantage ({winner_score} vs {loser_score}) on {mds}" }

/-- `analyze_match(player1_name, player1_birthdate, player2_name,
player2_birthdate, match_date_str, sport)`: `none` models any exception
(match-date `ValueError` from `strptime`, or the birthdate parse errors
raised inside the scoring calls). -/
def analyze_match (player1_name player1_birthdate player2_name player2_birthdate
    match_date_str sport : String) : Option MatchResult := do
  let md ← strptimeYmd match_date_str
  let p1 := mkProfile player1_name player1_birthdate
  let p2 := mkProfile player2_name player2_birthdate
  let sr1 ← calculate_match_score p1 md
  let sr2 ← calculate_match_score p2 md
  let py1 ← calculate_personal_year player1_birthdate md.year
  let py2 ← calculate_personal_year player2_birthdate md.year
  pure (mkResult (pyStrip player1_name) (pyStrip player2_name) p1 p2
    match_date_str sport md sr1.1 sr1.2 sr2.1 sr2.2 py1 py2)

/-! ## Structural characterization of a successful analysis -/

/-- Any successful `analyze_match` run decomposes into its parse, scoring and
result-building stages. -/
theorem analyze_match_some {n1 b1 n2 b2 mds sp : String} {r : MatchResult}
    (h : analyze_match n1 b1 n2 b2 mds sp = some r) :
    ∃ md sr1 sr2 py1 py2,
      strptimeYmd mds = some md ∧
      calculate_match_score (mkProfile n1 b1) md = some sr1 ∧
      calculate_match_score (mkProfile n2 b2) md = some sr2 ∧
      calculate_personal_year b1 md.year = some py1 ∧
      calculate_personal_year b2 md.year = some py2 ∧
      r = mkResult (pyStrip n1) (pyStrip n2) (mkProfile n1 b1) (mkProfile n2 b2)
            mds sp md sr1.1 sr1.2 sr2.1 sr2.2 py1 py2 := by
  simp only [analyze_match, bind, Option.bind_eq_some, Option.pure_def,
    Option.some.injEq] at h
  obtain ⟨md, hmd, sr1, h1, sr2, h2, py1, hp1, py2, hp2, hr⟩ := h
  exact ⟨md, sr1, sr2, py1, py2, hmd, h1, h2, hp1, hp2, hr.symm⟩

/-- A sample run used to instantiate the conditional theorems below. -/
def sampleResult : MatchResult :=
  (analyze_match "Alice Smith" "1990-01-01" "Bob Jones" "1990-06-15"
    "2024-07-04" "tennis").getD default

/-- C2: the verdict derives solely from the absolute score difference via the
fixed thresholds, in order: `diff >= 20` is STRONG with "Strong bet on
{winner}" and "3-5% of bankroll"; `10 <= diff < 20` is MODERATE; `diff < 10`
is LOW with the generic "Avoid / No bet" / "Skip this match", the winner
never being substituted in the LOW tier. -/
theorem verdict_from_score_difference {n1 b1 n2 b2 mds sp : String} {r : MatchResult}
    (h : analyze_match n1 b1 n2 b2 mds sp = some r) :
    r.score_difference = Int.natAbs ((r.player1.score : Int) - (r.player2.score : Int)) ∧
    (20 ≤ r.score_difference → r.confidence = "STRONG" ∧
      r.recommendation = strongRecommendation r.winner_prediction ∧
      r.bet_size = "3-5% of bankroll") ∧
    (10 ≤ r.score_difference ∧ r.score_difference < 20 → r.confidence = "MODERATE" ∧
      r.recommendation = moderateRecommendation r.winner_prediction ∧
      r.bet_size = "1-2% of bankroll") ∧
    (r.score_difference < 10 → r.confidence = "LOW" ∧
      r.recommendation = "Avoid / No bet" ∧ r.bet_size = "Skip this match") := by
  obtain ⟨md, sr1, sr2, py1, py2, hmd, h1, h2, hp1, hp2, rfl⟩ := analyze_match_some h
  refine ⟨rfl, ?_, ?_, ?_⟩ <;>
    · intro hd
      simp only [mkResult, ge_iff_le] at hd ⊢
      split_ifs <;> first | exact ⟨rfl, rfl, rfl⟩ | omega

/-- C8: equal scores produce the literal tie sentinel, a zero score
difference, and the LOW verdict; a strictly higher score makes that athlete's
display name the winner prediction. -/
theorem tie_sentinel_and_winner_name {n1 b1 n2 b2 mds sp : String} {r : MatchResult}
    (h : analyze_match n1 b1 n2 b2 mds sp = some r) :
    (r.player1.score = r.player2.score →
      r.winner_prediction = "TIE" ∧ r.score_difference = 0 ∧
      r.confidence = "LOW" ∧ r.recommendation = "Avoid / No bet" ∧
      r.bet_size = "Skip this match") ∧
    (r.player2.score < r.player1.score → r.winner_prediction = r.player1.name) ∧
    (r.player1.score < r.player2.score → r.winner_prediction = r.player2.name) := by
  obtain ⟨md, sr1, sr2, py1, py2, hmd, h1, h2, hp1, hp2, rfl⟩ := analyze_match_some h
  refine ⟨?_, ?_, ?_⟩ <;>
    · intro hd
      simp only [mkResult, ge_iff_le] at hd ⊢
      split_ifs <;> first | omega | simp_all

/-- C9 (amended): the output name fields are the caller's athlete names with
leading and trailing whitespace stripped (`(name or "").strip()`), not the
verbatim strings; normalization affects only the calculation. -/
theorem output_names_are_stripped_originals {n1 b1 n2 b2 mds sp : String} {r : MatchResult}
    (h : analyze_match n1 b1 n2 b2 mds sp = some r) :
    r.player1.name = pyStrip n1 ∧ r.player2.name = pyStrip n2 := by
  obtain ⟨md, sr1, sr2, py1, py2, hmd, h1, h2, hp1, hp2, rfl⟩ := analyze_match_some h
  exact ⟨rfl, rfl⟩

/-- Witness instantiating `verdict_from_score_difference` on a concrete run. -/
theorem verdict_from_score_difference_witness :
    sampleResult.score_difference =
      Int.natAbs ((sampleResult.player1.score : Int) - (sampleResult.player2.score : Int)) ∧
    (20 ≤ sampleResult.score_difference → sampleResult.confidence = "STRONG" ∧
      sampleResult.recommendation = strongRecommendation sampleResult.winner_prediction ∧
      sampleResult.bet_size = "3-5% of bankroll") ∧
    (10 ≤ sampleResult.score_difference ∧ sampleResult.score_difference < 20 →
      sampleResult.confidence = "MODERATE" ∧
      sampleResult.recommendation = moderateRecommendation sampleResult.winner_prediction ∧
      sampleResult.bet_size = "1-2% of bankroll") ∧
    (sampleResult.score_difference < 10 → sampleResult.confidence = "LOW" ∧
      sampleResult.recommendation = "Avoid / No bet" ∧
      sampleResult.bet_size = "Skip this match") :=
  @verdict_from_score_difference "Alice Smith" "1990-01-01" "Bob Jones" "1990-06-15"
    "2024-07-04" "tennis" sampleResult (by rfl)

/-- Witness instantiating `tie_sentinel_and_winner_name` on a concrete run. -/
theorem tie_sentinel_and_winner_name_witness :
    (sampleResult.player1.score = sampleResult.player2.score →
      sampleResult.winner_prediction = "TIE" ∧ sampleResult.score_difference = 0 ∧
      sampleResult.confidence = "LOW" ∧ sampleResult.recommendation = "Avoid / No bet" ∧
      sampleResult.bet_size = "Skip this match") ∧
    (sampleResult.player2.score < sampleResult.player1.score →
      sampleResult.winner_prediction = sampleResult.player1.name) ∧
    (sampleResult.player1.score < sampleResult.player2.score →
      sampleResult.winner_prediction = sampleResult.player2.name) :=
  @tie_sentinel_and_winner_name "Alice Smith" "1990-01-01" "Bob Jones" "1990-06-15"
    "2024-07-04" "tennis" sampleResult (by rfl)

/-- Witness instantiating `output_names_are_stripped_originals` on a concrete
run. -/
theorem output_names_are_stripped_originals_witness :
    sampleResult.player1.name = pyStrip "Alice Smith" ∧
    sampleResult.player2.name = pyStrip "Bob Jones" :=
  @output_names_are_stripped_originals "Alice Smith" "1990-01-01" "Bob Jones"
    "1990-06-15" "2024-07-04" "tennis" sampleResult (by rfl)

/-- C9 counterexample: a caller-supplied name with surrounding whitespace is
not preserved verbatim in the output — `" Alice "` comes back as `"Alice"`. -/
theorem output_name_not_verbatim_counterexample :
    ((analyze_match " Alice " "1990-01-01" "Bob" "1990-06-15" "2024-07-04"
        "tennis").map MatchResult.player1).map PlayerOut.name = some "Alice" ∧
    some "Alice" ≠ some " Alice " :=
  ⟨by rfl, by decide⟩

/-- C3 (amended): a match-date string that the `YYYY-MM-DD` parse rejects
makes `analyze_match` fail with the parse error instead of returning any
verdict.  (Birthdates are not parsed this way — see the counterexample.) -/
theorem malformed_match_date_fails {n1 b1 n2 b2 mds sp : String}
    (h : strptimeYmd mds = none) :
    analyze_match n1 b1 n2 b2 mds sp = none := by
  simp [analyze_match, h]

/-- Witness instantiating `malformed_match_date_fails` on a concrete
malformed match date. -/
theorem malformed_match_date_fails_witness :
    strptimeYmd "2024/07/04" = none ∧
    analyze_match "Alice" "1990-01-01" "Bob" "1990-06-15" "2024/07/04" "tennis" = none :=
  ⟨by rfl, @malformed_match_date_fails "Alice" "1990-01-01" "Bob" "1990-06-15"
    "2024/07/04" "tennis" (by rfl)⟩

/-- C3 counterexample: birthdates are parsed leniently (`split('-')` plus
`int`), so the birthdate `"abc-12-25"` — which cannot be parsed as
`YYYY-MM-DD` — still produces a full `MatchVerdict`. -/
theorem malformed_birthdate_still_analyzed_counterexample :
    strptimeYmd "abc-12-25" = none ∧
    (analyze_match "Al" "abc-12-25" "Bob" "1990-06-15" "2024-07-04"
      "tennis").isSome = true :=
  ⟨by rfl, by rfl⟩

/-- C4 counterexample: the life path of `"1987-05-22"` is not 4 — the eight
digits sum to 34, which reduces to 7. -/
theorem life_path_example_not_four_counterexample :
    calculate_life_path "1987-05-22" = 7 ∧ calculate_life_path "1987-05-22" ≠ 4 :=
  ⟨by rfl, by decide⟩

/-- C4 (amended): the life path of `"1987-05-22"` is 7 (digit sum 34, then
3 + 4 = 7; no master number is met along the way). -/
theorem life_path_example_value : calculate_life_path "1987-05-22" = 7 := by rfl

/-- C6: the universal year, month and day use plain digit-root reduction with
no master-number stop (2009 sums to 11 and keeps reducing to 2), and for
every year at least 1 all three lie in 1..9. -/
theorem universal_numbers_single_digit (y m d : Nat) (hy : 1 ≤ y) :
    (1 ≤ calculate_universal_year y ∧ calculate_universal_year y ≤ 9) ∧
    (1 ≤ calculate_universal_month y m ∧ calculate_universal_month y m ≤ 9) ∧
    (1 ≤ calculate_universal_day y m d ∧ calculate_universal_day y m d ≤ 9) ∧
    calculate_universal_year 2009 = 2 := by
  have h1 : 1 ≤ digitSum y := digitSum_pos y hy
  have huy : 1 ≤ calculate_universal_year y := plainReduce_pos _ h1
  have hum : 1 ≤ calculate_universal_month y m := plainReduce_pos _ (by omega)
  have hud : 1 ≤ calculate_universal_day y m d := plainReduce_pos _ (by omega)
  exact ⟨⟨huy, plainReduce_le_nine _⟩, ⟨hum, plainReduce_le_nine _⟩,
    ⟨hud, plainReduce_le_nine _⟩, by rfl⟩

/-- Witness instantiating `universal_numbers_single_digit` at 2024-07-04. -/
theorem universal_numbers_single_digit_witness :
    (1 ≤ calculate_universal_year 2024 ∧ calculate_universal_year 2024 ≤ 9) ∧
    (1 ≤ calculate_universal_month 2024 7 ∧ calculate_universal_month 2024 7 ≤ 9) ∧
    (1 ≤ calculate_universal_day 2024 7 4 ∧ calculate_universal_day 2024 7 4 ≤ 9) ∧
    calculate_universal_year 2009 = 2 :=
  universal_numbers_single_digit 2024 7 4 (by decide)

/-- C7: for every `n ≤ 10000` the master-stopping reduction terminates — any
sufficient fuel budget, in particular 10000, computes the same value — and
returns a value in {1..9, 11, 22, 33}, except that 0 is a fixed point. -/
theorem master_reduction_terminates_in_range (n : Nat) (hn : n ≤ 10000) :
    (n = 0 → masterReduce n = 0) ∧
    (1 ≤ n → (1 ≤ masterReduce n ∧ masterReduce n ≤ 9) ∨
      masterReduce n = 11 ∨ masterReduce n = 22 ∨ masterReduce n = 33) ∧
    masterReduceFuel 10000 n = masterReduce n := by
  refine ⟨?_, ?_, masterReduceFuel_stable n 10000 hn⟩
  · rintro rfl; rfl
  · intro h1
    exact masterReduceFuel_range n n (Nat.le_refl n) h1

/-- Witness instantiating `master_reduction_terminates_in_range` at 9999. -/
theorem master_reduction_terminates_in_range_witness :
    ((9999 : Nat) = 0 → masterReduce 9999 = 0) ∧
    (1 ≤ (9999 : Nat) → (1 ≤ masterReduce 9999 ∧ masterReduce 9999 ≤ 9) ∨
      masterReduce 9999 = 11 ∨ masterReduce 9999 = 22 ∨ masterReduce 9999 = 33) ∧
    masterReduceFuel 10000 9999 = masterReduce 9999 :=
  master_reduction_terminates_in_range 9999 (by decide)

/-- Master numbers belong to neither harmonious group, so `numbers_compatible`
is false whenever either argument is one. -/
theorem numbers_compatible_master (m x : Nat)
    (hm : m = 11 ∨ m = 22 ∨ m = 33) :
    numbers_compatible m x = false ∧ numbers_compatible x m = false := by
  rcases hm with rfl | rfl | rfl <;>
    simp [numbers_compatible, get_harmonious_groups]

/-- C10: for a master-number life path, scoring rules 1 and 5 can never fire
(the universal year is always in 1..9 and the harmonious groups hold only
1..9), and for a master-number expression rule 4 can never fire; in general
`numbers_compatible` rejects any pair containing a master number. -/
theorem master_numbers_never_match_rules (p : Profile) (d : Date) (x : Nat)
    (hy : 1 ≤ d.year) :
    (p.life_path = 11 ∨ p.life_path = 22 ∨ p.life_path = 33 →
      numbers_compatible p.life_path x = false ∧
      numbers_compatible x p.life_path = false ∧
      p.life_path ≠ calculate_universal_year d.year ∧
      numbers_compatible p.life_path (calculate_universal_year d.year) = false) ∧
    (p.expression = 11 ∨ p.expression = 22 ∨ p.expression = 33 →
      p.expression ≠ calculate_universal_month d.year d.month) ∧
    (1 ≤ calculate_universal_year d.year ∧ calculate_universal_year d.year ≤ 9) ∧
    (1 ≤ calculate_universal_month d.year d.month ∧
      calculate_universal_month d.year d.month ≤ 9) := by
  have h1 : 1 ≤ digitSum d.year := digitSum_pos _ hy
  have huy : 1 ≤ calculate_universal_year d.year := plainReduce_pos _ h1
  have huy9 : calculate_universal_year d.year ≤ 9 := plainReduce_le_nine _
  have hum : 1 ≤ calculate_universal_month d.year d.month := plainReduce_pos _ (by omega)
  have hum9 : calculate_universal_month d.year d.month ≤ 9 := plainReduce_le_nine _
  refine ⟨?_, ?_, ⟨huy, huy9⟩, ⟨hum, hum9⟩⟩
  · intro hm
    obtain ⟨ha, hb⟩ := numbers_compatible_master p.life_path x hm
    obtain ⟨hc, -⟩ := numbers_compatible_master p.life_path
      (calculate_universal_year d.year) hm
    exact ⟨ha, hb, by omega, hc⟩
  · intro hm
    omega

/-- Witness instantiating `master_numbers_never_match_rules` with a profile
whose life path is 22 and expression 33, on 2024-07-04. -/
theorem master_numbers_never_match_rules_witness :
    (Profile.life_path ⟨"M", "1999-11-29", 22, 33⟩ = 11 ∨
      Profile.life_path ⟨"M", "1999-11-29", 22, 33⟩ = 22 ∨
      Profile.life_path ⟨"M", "1999-11-29", 22, 33⟩ = 33 →
      numbers_compatible (Profile.life_path ⟨"M", "1999-11-29", 22, 33⟩) 4 = false ∧
      numbers_compatible 4 (Profile.life_path ⟨"M", "1999-11-29", 22, 33⟩) = false ∧
      Profile.life_path ⟨"M", "1999-11-29", 22, 33⟩ ≠
        calculate_universal_year (Date.year ⟨2024, 7, 4⟩) ∧
      numbers_compatible (Profile.life_path ⟨"M", "1999-11-29", 22, 33⟩)
        (calculate_universal_year (Date.year ⟨2024, 7, 4⟩)) = false) ∧
    (Profile.expression ⟨"M", "1999-11-29", 22, 33⟩ = 11 ∨
      Profile.expression ⟨"M", "1999-11-29", 22, 33⟩ = 22 ∨
      Profile.expression ⟨"M", "1999-11-29", 22, 33⟩ = 33 →
      Profile.expression ⟨"M", "1999-11-29", 22, 33⟩ ≠
        calculate_universal_month (Date.year ⟨2024, 7, 4⟩) (Date.month ⟨2024, 7, 4⟩)) ∧
    (1 ≤ calculate_universal_year (Date.year ⟨2024, 7, 4⟩) ∧
      calculate_universal_year (Date.year ⟨2024, 7, 4⟩) ≤ 9) ∧
    (1 ≤ calculate_universal_month (Date.year ⟨2024, 7, 4⟩) (Date.month ⟨2024, 7, 4⟩) ∧
      calculate_universal_month (Date.year ⟨2024, 7, 4⟩) (Date.month ⟨2024, 7, 4⟩) ≤ 9) :=
  master_numbers_never_match_rules ⟨"M", "1999-11-29", 22, 33⟩ ⟨2024, 7, 4⟩ 4 (by decide)

/-- C1: the per-athlete score is the exact sum of the weights of the rules
that fired (10, 10, 5, 5, 3, 3 in the fixed order), the reasons list holds
exactly one string per fired rule in that same order, the harmonious rules
fire independently of the exact-match rules (no mutual exclusion), and the
score is always at most 36 (hence in [0, 36] over `Nat`). -/
theorem match_score_is_sum_of_fired_rules (p : Profile) (d : Date)
    (s : Nat) (rs : List String) (py pd : Nat)
    (hpy : calculate_personal_year p.birthdate d.year = some py)
    (hpd : calculate_personal_day p.birthdate d = some pd)
    (h : calculate_match_score p d = some (s, rs)) :
    s = (if p.life_path = calculate_universal_year d.year then 10 else 0) +
        (if py = calculate_universal_year d.year then 10 else 0) +
        (if pd = calculate_universal_day d.year d.month d.day then 5 else 0) +
        (if p.expression = calculate_universal_month d.year d.month then 5 else 0) +
        (if numbers_compatible p.life_path (calculate_universal_year d.year) = true then 3 else 0) +
        (if numbers_compatible py (calculate_universal_year d.year) = true then 3 else 0) ∧
    rs = (if p.life_path = calculate_universal_year d.year then
            [reasonLifePathMatch p.life_path (calculate_universal_year d.year)] else []) ++
         (if py = calculate_universal_year d.year then
            [reasonPersonalYearMatch py (calculate_universal_year d.year)] else []) ++
         (if pd = calculate_universal_day d.year d.month d.day then
            [reasonPersonalDayMatch pd (calculate_universal_day d.year d.month d.day)] else []) ++
         (if p.expression = calculate_universal_month d.year d.month then
            [reasonExpressionMatch p.expression (calculate_universal_month d.year d.month)] else []) ++
         (if numbers_compatible p.life_path (calculate_universal_year d.year) = true then
            [reasonLifePathHarmony p.life_path (calculate_universal_year d.year)] else []) ++
         (if numbers_compatible py (calculate_universal_year d.year) = true then
            [reasonPersonalYearHarmony py (calculate_universal_year d.year)] else []) ∧
    s ≤ 36 ∧
    (p.life_path = calculate_universal_year d.year →
      reasonLifePathMatch p.life_path (calculate_universal_year d.year) ∈ rs) ∧
    (numbers_compatible p.life_path (calculate_universal_year d.year) = true →
      reasonLifePathHarmony p.life_path (calculate_universal_year d.year) ∈ rs) := by
  simp only [calculate_match_score, bind, hpy, hpd, Option.some_bind, Option.pure_def,
    Option.some.injEq, scoreAccum_eq, Prod.mk.injEq] at h
  obtain ⟨hs, hrs⟩ := h
  subst hs
  subst hrs
  refine ⟨rfl, rfl, sum_of_rule_weights_le .., ?_, ?_⟩
  · intro h1
    rw [if_pos h1]
    simp [List.mem_append]
  · intro h1
    rw [if_pos h1]
    simp [List.mem_append]

/-- Concrete profile for the scoring witness: life path 8 on a universal-year-8
date, so the exact-match rule 1 and the harmony rules 5 and 6 all fire. -/
def sampleProfile : Profile := mkProfile "Alice Smith" "1990-01-06"

/-- Concrete match date for the scoring witness. -/
def sampleDate : Date := ⟨2024, 7, 4⟩

/-- Witness instantiating `match_score_is_sum_of_fired_rules` on a run where
rules 1, 5 and 6 fire together (score 16 = 10 + 3 + 3): the exact-match and
harmony rules are not mutually exclusive. -/
theorem match_score_is_sum_of_fired_rules_witness :
    (16 : Nat) =
      (if sampleProfile.life_path = calculate_universal_year sampleDate.year then 10 else 0) +
      (if 6 = calculate_universal_year sampleDate.year then 10 else 0) +
      (if 8 = calculate_universal_day sampleDate.year sampleDate.month sampleDate.day
        then 5 else 0) +
      (if sampleProfile.expression = calculate_universal_month sampleDate.year sampleDate.month
        then 5 else 0) +
      (if numbers_compatible sampleProfile.life_path (calculate_universal_year sampleDate.year)
          = true then 3 else 0) +
      (if numbers_compatible 6 (calculate_universal_year sampleDate.year) = true
        then 3 else 0) ∧
    [reasonLifePathMatch 8 8, reasonLifePathHarmony 8 8, reasonPersonalYearHarmony 6 8] =
      (if sampleProfile.life_path = calculate_universal_year sampleDate.year then
        [reasonLifePathMatch sampleProfile.life_path
          (calculate_universal_year sampleDate.year)] else []) ++
      (if 6 = calculate_universal_year sampleDate.year then
        [reasonPersonalYearMatch 6 (calculate_universal_year sampleDate.year)] else []) ++
      (if 8 = calculate_universal_day sampleDate.year sampleDate.month sampleDate.day then
        [reasonPersonalDayMatch 8
          (calculate_universal_day sampleDate.year sampleDate.month sampleDate.day)] else []) ++
      (if sampleProfile.expression = calculate_universal_month sampleDate.year sampleDate.month
        then [reasonExpressionMatch sampleProfile.expression
          (calculate_universal_month sampleDate.year sampleDate.month)] else []) ++
      (if numbers_compatible sampleProfile.life_path (calculate_universal_year sampleDate.year)
          = true then [reasonLifePathHarmony sampleProfile.life_path
          (calculate_universal_year sampleDate.year)] else []) ++
      (if numbers_compatible 6 (calculate_universal_year sampleDate.year) = true then
        [reasonPersonalYearHarmony 6 (calculate_universal_year sampleDate.year)] else []) ∧
    (16 : Nat) ≤ 36 ∧
    (sampleProfile.life_path = calculate_universal_year sampleDate.year →
      reasonLifePathMatch sampleProfile.life_path (calculate_universal_year sampleDate.year) ∈
        [reasonLifePathMatch 8 8, reasonLifePathHarmony 8 8,
          reasonPersonalYearHarmony 6 8]) ∧
    (numbers_compatible sampleProfile.life_path (calculate_universal_year sampleDate.year)
        = true →
      reasonLifePathHarmony sampleProfile.life_path (calculate_universal_year sampleDate.year) ∈
        [reasonLifePathMatch 8 8, reasonLifePathHarmony 8 8,
          reasonPersonalYearHarmony 6 8]) :=
  match_score_is_sum_of_fired_rules sampleProfile sampleDate 16
    [reasonLifePathMatch 8 8, reasonLifePathHarmony 8 8, reasonPersonalYearHarmony 6 8]
    6 8 (by rfl) (by rfl) (by rfl)

/-! ## Shape of normalized names -/

theorem filter_mark_then_ascii (l : List Char) :
    (l.filter (fun c => !isCombiningMark c)).filter (fun c => c.toNat ≤ 127) =
      l.filter (fun c => c.toNat ≤ 127) := by
  induction l with
  | nil => rfl
  | cons a l ih =>
      by_cases ha : a.toNat ≤ 127
      · have hmark : isCombiningMark a = false := by
          simp only [isCombiningMark, Bool.and_eq_false_iff, decide_eq_false_iff_not]
          left
          omega
        simp [List.filter_cons, hmark, ha, ih]
      · by_cases hm : isCombiningMark a = true <;>
          simp [List.filter_cons, hm, ha, ih]

theorem isAsciiLetter_ne_space {c : Char} (h : isAsciiLetter c = true) : c ≠ ' ' := by
  intro he
  subst he
  exact absurd h (by decide)

theorem keepLetterWs_mem {l : List Char} {c : Char} (hc : c ∈ keepLetterWs l)
    (hws : isPyWs c = false) : isAsciiLetter c = true := by
  simp only [keepLetterWs, List.mem_map] at hc
  obtain ⟨a, -, ha⟩ := hc
  by_cases hb : (isAsciiLetter a || isPyWs a) = true
  · rw [if_pos hb] at ha
    subst ha
    rcases Bool.or_eq_true_iff.mp hb with h | h
    · exact h
    · rw [h] at hws
      cases hws
  · rw [if_neg hb] at ha
    subst ha
    exact absurd hws (by decide)

theorem wordsAux_sound : ∀ (l acc : List Char),
    (∀ c ∈ l, isPyWs c = false → isAsciiLetter c = true) →
    (∀ c ∈ acc, isPyWs c = false ∧ isAsciiLetter c = true) →
    ∀ w ∈ wordsAux acc l,
      w ≠ [] ∧ ∀ c ∈ w, isPyWs c = false ∧ isAsciiLetter c = true := by
  intro l
  induction l with
  | nil =>
      intro acc hl hacc w hw
      simp only [wordsAux] at hw
      split at hw
      · cases hw
      · rename_i hne
        have hacc_ne : acc ≠ [] := by
          intro h0
          rw [h0] at hne
          exact hne rfl
        simp only [List.mem_singleton] at hw
        subst hw
        refine ⟨by simpa using hacc_ne, ?_⟩
        intro c hc
        exact hacc c (List.mem_reverse.mp hc)
  | cons a rest ih =>
      intro acc hl hacc w hw
      have hl_rest : ∀ c ∈ rest, isPyWs c = false → isAsciiLetter c = true :=
        fun c hc => hl c (List.mem_cons_of_mem a hc)
      simp only [wordsAux] at hw
      by_cases hwsa : isPyWs a = true
      · rw [if_pos hwsa] at hw
        split at hw
        · exact ih [] hl_rest (by simp) w hw
        · rename_i hne
          have hacc_ne : acc ≠ [] := by
            intro h0
            rw [h0] at hne
            exact hne rfl
          rcases List.mem_cons.mp hw with hw | hw
          · subst hw
            refine ⟨by simpa using hacc_ne, ?_⟩
            intro c hc
            exact hacc c (List.mem_reverse.mp hc)
          · exact ih [] hl_rest (by simp) w hw
      · rw [if_neg hwsa] at hw
        have hwsa' : isPyWs a = false := by
          cases h : isPyWs a
          · rfl
          · exact absurd h hwsa
        refine ih (a :: acc) hl_rest ?_ w hw
        intro c hc
        rcases List.mem_cons.mp hc with hce | hc
        · rw [hce]
          exact ⟨hwsa', hl a (List.mem_cons_self a rest) hwsa'⟩
        · exact hacc c hc

theorem joinWords_ne_nil {w : List Char} {rest : List (List Char)} (hw : w ≠ []) :
    joinWords (w :: rest) ≠ [] := by
  cases rest with
  | nil => simpa [joinWords] using hw
  | cons w2 rest2 =>
      simp only [joinWords, ne_eq, List.append_eq_nil]
      intro h
      exact hw h.1

theorem chain'_of_no_space {l : List Char} (h : ∀ c ∈ l, c ≠ ' ') :
    List.Chain' (fun a b => ¬(a = ' ' ∧ b = ' ')) l := by
  induction l with
  | nil => exact List.chain'_nil
  | cons a l ih =>
      rw [List.chain'_cons']
      refine ⟨?_, ih fun c hc => h c (List.mem_cons_of_mem a hc)⟩
      intro y hy
      intro hab
      exact h a (List.mem_cons_self a l) hab.1

theorem getLast?_ne_space_of_no_space {l : List Char} (h : ∀ c ∈ l, c ≠ ' ') :
    l.getLast? ≠ some ' ' := by
  intro heq
  have hmem : ' ' ∈ l.getLast? := heq
  obtain ⟨hne, hlast⟩ := List.mem_getLast?_eq_getLast hmem
  exact h _ (hlast ▸ List.getLast_mem hne) rfl

theorem joinWords_sound : ∀ (ws : List (List Char)),
    (∀ w ∈ ws, w ≠ [] ∧ ∀ c ∈ w, isPyWs c = false ∧ isAsciiLetter c = true) →
    (∀ c ∈ joinWords ws, isAsciiLetter c = true ∨ c = ' ') ∧
    (joinWords ws).head? ≠ some ' ' ∧
    (joinWords ws).getLast? ≠ some ' ' ∧
    List.Chain' (fun a b => ¬(a = ' ' ∧ b = ' ')) (joinWords ws) := by
  intro ws
  induction ws with
  | nil => intro h; refine ⟨by simp [joinWords], by simp [joinWords], by simp [joinWords],
      by simp [joinWords]⟩
  | cons w rest ih =>
      intro h
      obtain ⟨hw_ne, hw_chars⟩ := h w (List.mem_cons_self w rest)
      have hw_letter : ∀ c ∈ w, isAsciiLetter c = true := fun c hc => (hw_chars c hc).2
      have hw_nospace : ∀ c ∈ w, c ≠ ' ' := fun c hc => isAsciiLetter_ne_space (hw_letter c hc)
      cases rest with
      | nil =>
          simp only [joinWords]
          obtain ⟨a, w', rfl⟩ : ∃ a w', w = a :: w' := by
            cases w with
            | nil => exact absurd rfl hw_ne
            | cons a w' => exact ⟨a, w', rfl⟩
          refine ⟨fun c hc => Or.inl (hw_letter c hc), ?_, ?_, ?_⟩
          · simp only [List.head?_cons, ne_eq, Option.some.injEq]
            exact hw_nospace a (List.mem_cons_self a w')
          · exact getLast?_ne_space_of_no_space hw_nospace
          · exact chain'_of_no_space hw_nospace
      | cons w2 rest2 =>
          have hrest : ∀ u ∈ (w2 :: rest2),
              u ≠ [] ∧ ∀ c ∈ u, isPyWs c = false ∧ isAsciiLetter c = true :=
            fun u hu => h u (List.mem_cons_of_mem w hu)
          obtain ⟨ihmem, ihhead, ihlast, ihchain⟩ := ih hrest
          have hJ_ne : joinWords (w2 :: rest2) ≠ [] :=
            joinWords_ne_nil (hrest w2 (List.mem_cons_self w2 rest2)).1
          simp only [joinWords]
          refine ⟨?_, ?_, ?_, ?_⟩
          · intro c hc
            rcases List.mem_append.mp hc with hc | hc
            · exact Or.inl (hw_letter c hc)
            · rcases List.mem_cons.mp hc with rfl | hc
              · exact Or.inr rfl
              · exact ihmem c hc
          · obtain ⟨a, w', rfl⟩ : ∃ a w', w = a :: w' := by
              cases w with
              | nil => exact absurd rfl hw_ne
              | cons a w' => exact ⟨a, w', rfl⟩
            simp only [List.cons_append, List.head?_cons, ne_eq, Option.some.injEq]
            exact hw_nospace a (List.mem_cons_self a w')
          · rw [List.getLast?_append_cons]
            obtain ⟨j, J', hJ⟩ : ∃ j J', joinWords (w2 :: rest2) = j :: J' := by
              cases hJJ : joinWords (w2 :: rest2) with
              | nil => exact absurd hJJ hJ_ne
              | cons j J' => exact ⟨j, J', rfl⟩
            rw [hJ, List.getLast?_cons_cons]
            rw [hJ] at ihlast
            exact ihlast
          · rw [List.chain'_append]
            refine ⟨chain'_of_no_space hw_nospace, ?_, ?_⟩
            · rw [List.chain'_cons']
              refine ⟨?_, ihchain⟩
              intro y hy hab
              apply ihhead
              rw [← hab.2]
              exact hy
            · intro x hx y hy hab
              have hxw : x ∈ w := by
                obtain ⟨hne, hlast⟩ := List.mem_getLast?_eq_getLast hx
                exact hlast ▸ List.getLast_mem hne
              exact hw_nospace x hxw hab.1

theorem normalize_name_eq_mk (s : String) :
    normalize_name s =
      String.mk (joinWords (wordsAux [] (keepLetterWs (asciiIgnore (nfkdList s.data))))) := by
  by_cases hs : s.data.isEmpty
  · have h0 : s.data = [] := by simpa using hs
    rw [normalize_name, if_pos hs, h0]
    rfl
  · rw [normalize_name, if_neg hs]

theorem normalize_name_data (s : String) :
    (normalize_name s).data =
      joinWords (wordsAux [] (keepLetterWs (asciiIgnore (nfkdList s.data)))) :=
  congrArg String.data (normalize_name_eq_mk s)

/-- C5 (amended): `normalize_name` equals the spec's four-step pipeline with
step (b) strengthened to *delete* every non-ASCII character that survives
decomposition (the behaviour of `encode("ascii", "ignore")`), not just the
combining marks; the output consists solely of ASCII letters and single
separating spaces (no leading, trailing or doubled spaces), and
"Peréz Vaško" normalizes to "Perez Vasko". -/
theorem normalize_name_matches_pipeline (s : String) :
    normalize_name s = specNormalizeAmended s ∧
    (∀ c ∈ (normalize_name s).data, isAsciiLetter c = true ∨ c = ' ') ∧
    (normalize_name s).data.head? ≠ some ' ' ∧
    (normalize_name s).data.getLast? ≠ some ' ' ∧
    List.Chain' (fun a b => ¬(a = ' ' ∧ b = ' ')) (normalize_name s).data ∧
    normalize_name "Peréz Vaško" = "Perez Vasko" := by
  have hdata := normalize_name_data s
  have hK : ∀ c ∈ keepLetterWs (asciiIgnore (nfkdList s.data)),
      isPyWs c = false → isAsciiLetter c = true := fun c hc => keepLetterWs_mem hc
  have hwords := wordsAux_sound (keepLetterWs (asciiIgnore (nfkdList s.data))) [] hK
    (by simp)
  have hjoin := joinWords_sound _ hwords
  refine ⟨?_, ?_, ?_, ?_, ?_, by rfl⟩
  · rw [normalize_name_eq_mk]
    simp only [specNormalizeAmended, filter_mark_then_ascii, keepLetterWs, asciiIgnore]
  · rw [hdata]
    exact hjoin.1
  · rw [hdata]
    exact hjoin.2.1
  · rw [hdata]
    exact hjoin.2.2.1
  · rw [hdata]
    exact hjoin.2.2.2

/-- C5 counterexample: the code *deletes* an undecomposable non-ASCII letter
where the specified pipeline replaces it with a space — on "Bjørn" the code
yields "Bjrn" but the spec's four steps yield "Bj rn". -/
theorem normalize_name_pipeline_counterexample :
    normalize_name "Bjørn" = "Bjrn" ∧ specNormalize "Bjørn" = "Bj rn" ∧
    normalize_name "Bjørn" ≠ specNormalize "Bjørn" :=
  ⟨by rfl, by rfl, by decide⟩

end Numerology
